import Mathlib

/-!
Verification of the LLMMeetingRoom debate core: a shallow embedding of the
consensus engine (`src/utils/index.ts`), the persona response parser
(`PersonaEngine.parsePersonaResponse`), the debate orchestrator state machine
(`src/services/debateOrchestrator.ts`) and the voting-session manager
(`ConsensusManager`), together with theorems settling the spec claims.

Numbers that are JavaScript floats in the source are modelled as rationals;
the arithmetic in the claims stays far from any rounding boundary.
-/

namespace MeetingRoom

/-! ### Consensus engine (`consensusUtils.calculateBasicConsensus`) -/

/-- Result record of `calculateBasicConsensus`; `finalScores` models the
JS object mapping `persona_<index>` to the score at that index. -/
structure BasicConsensus where
  supportRate : ℚ
  opposeRate : ℚ
  consensusReached : Bool
  threshold : ℚ
  finalScores : List (String × ℚ)
  deriving Repr, DecidableEq

/-- Embedding of `consensusUtils.calculateBasicConsensus` from
`src/utils/index.ts` (lines 85-126): early return on the empty list, then
`supportRate = total / (10n)`, `opposeRate = (10n - total) / (10n - n)`,
consensus iff either rate exceeds the fixed threshold `0.7`. -/
def calculateBasicConsensus (scores : List ℚ) : BasicConsensus :=
  if scores.isEmpty then
    { supportRate := 0, opposeRate := 0, consensusReached := false,
      threshold := 7/10, finalScores := [] }
  else
    let totalScores := scores.foldl (· + ·) 0
    let maxPossibleScore : ℚ := (scores.length : ℚ) * 10
    let minPossibleScore : ℚ := (scores.length : ℚ) * 1
    let supportRate := totalScores / maxPossibleScore
    let opposeRate := (maxPossibleScore - totalScores) / (maxPossibleScore - minPossibleScore)
    let threshold : ℚ := 7/10
    let consensusReached := decide (threshold < supportRate) || decide (threshold < opposeRate)
    let finalScores := scores.enum.map (fun p => ("persona_" ++ toString p.1, p.2))
    { supportRate := supportRate, opposeRate := opposeRate,
      consensusReached := consensusReached, threshold := threshold,
      finalScores := finalScores }

/-! ### Persona response parser (`PersonaEngine.parsePersonaResponse`) -/

/-- Whitespace class of the JavaScript regex `\s` and of `String.prototype.trim`,
by code point. -/
def isJsSpace (c : Char) : Bool :=
  c.toNat = 9 || c.toNat = 10 || c.toNat = 11 || c.toNat = 12 || c.toNat = 13 ||
  c.toNat = 32 || c.toNat = 0xa0 || c.toNat = 0x1680 ||
  (0x2000 ≤ c.toNat && c.toNat ≤ 0x200a) || c.toNat = 0x2028 || c.toNat = 0x2029 ||
  c.toNat = 0x202f || c.toNat = 0x205f || c.toNat = 0x3000 || c.toNat = 0xfeff

/-- Digit class of the JavaScript regex `\d` (ASCII 0-9). -/
def isDigitChar (c : Char) : Bool := 48 ≤ c.toNat && c.toNat ≤ 57

/-- Decimal value of a digit string, as read by `parseInt`. -/
def digitsToNat (l : List Char) : ℕ :=
  l.foldl (fun acc c => 10 * acc + (c.toNat - 48)) 0

/-- Literal `傾向度分數` opening the tendency-score pattern. -/
def scoreLabel : List Char := ['傾', '向', '度', '分', '數']

/-- Character class `[：:]` of the tendency-score pattern. -/
def isColonChar (c : Char) : Bool := c = '：' || c = ':'

/-- Removes `p` from the front of `l` if `p` is a literal prefix of it. -/
def dropLabel : List Char → List Char → Option (List Char)
  | [], l => some l
  | _ :: _, [] => none
  | p :: ps, c :: cs => if c = p then dropLabel ps cs else none

/-- Attempts the regex `傾向度分數[：:]\s*(\d+)\/10` at the start of `l`;
on success returns the captured number and the characters after the match.
Greedy `\s*` and `\d+` are deterministic here because the classes are disjoint
and `/` is in neither. -/
def matchScoreAt (l : List Char) : Option (ℕ × List Char) :=
  match dropLabel scoreLabel l with
  | none => none
  | some l1 =>
    match l1 with
    | [] => none
    | c :: l2 =>
      if isColonChar c then
        let l3 := l2.dropWhile isJsSpace
        let digits := l3.takeWhile isDigitChar
        let l4 := l3.dropWhile isDigitChar
        if digits.isEmpty then none
        else
          match l4 with
          | a :: b :: c2 :: l5 =>
            if a = '/' && b = '1' && c2 = '0' then some (digitsToNat digits, l5)
            else none
          | _ => none
      else none

/-- Leftmost match of the tendency-score pattern, as a JS regex engine finds
it: returns the captured number, the characters before the match and the
characters after it. -/
def findScore : List Char → Option (ℕ × List Char × List Char)
  | [] => none
  | c :: rest =>
    match matchScoreAt (c :: rest) with
    | some (n, aft) => some (n, [], aft)
    | none =>
      match findScore rest with
      | some (n, bef, aft) => some (n, c :: bef, aft)
      | none => none

/-- Embedding of `String.prototype.trim`. -/
def jsTrim (l : List Char) : List Char :=
  ((l.dropWhile isJsSpace).reverse.dropWhile isJsSpace).reverse

/-- Output record of `parsePersonaResponse`; the `reasoning` and
`structureValidation` outputs of the source function are independent
best-effort metadata not touched by any claim and are not modelled. -/
structure ParsedResponse where
  cleanContent : List Char
  tendencyScore : ℕ
  deriving Repr, DecidableEq

/-- Embedding of `PersonaEngine.parsePersonaResponse` (tendency-score
extraction): the first match of `傾向度分數[：:]\s*(\d+)\/10` yields the score
via `parseInt` and is deleted from the content, which is then trimmed;
with no match the score defaults to 5 and the content is only trimmed. -/
def parsePersonaResponse (content : List Char) : ParsedResponse :=
  match findScore content with
  | some (n, bef, aft) => { cleanContent := jsTrim (bef ++ aft), tendencyScore := n }
  | none => { cleanContent := jsTrim content, tendencyScore := 5 }

/-- Specification-side description of one tendency-score instance: a colon
variant, a run of whitespace, a non-empty run of digits. -/
def IsScoreInstance (col : Char) (ws digits : List Char) : Prop :=
  isColonChar col = true ∧ (∀ c ∈ ws, isJsSpace c = true) ∧
  digits ≠ [] ∧ (∀ c ∈ digits, isDigitChar c = true)

/-- Content splits as `pre ++ 傾向度分數 ++ colon ++ ws ++ digits ++ /10 ++ aft`. -/
def ScoreSplit (content pre aft : List Char) : Prop :=
  ∃ col ws digits, IsScoreInstance col ws digits ∧
    content = pre ++ scoreLabel ++ col :: (ws ++ digits ++ '/' :: '1' :: '0' :: aft)

/-- Content contains a tendency-score line somewhere. -/
def HasScoreLine (content : List Char) : Prop :=
  ∃ pre aft, ScoreSplit content pre aft

/-! ### Debate orchestrator (`DebateOrchestrator`) -/

/-- States of the orchestrator (`DebateState` enum in the source). -/
inductive DebState where
  | idle
  | initializing
  | searching
  | ready
  | running
  | paused
  | completed
  | error
  deriving Repr, DecidableEq

/-- Room data consumed by the orchestrator: participant count, the validated
settings and the statement history, kept as the list of tendency scores since
consensus only reads those. -/
structure Room where
  participantCount : ℕ
  maxRounds : ℕ
  consensusThreshold : ℚ
  timeoutPerRound : ℕ
  statements : List ℚ
  deriving Repr, DecidableEq

/-- Mutable fields of `DebateOrchestrator` touched by the claims; `lastError`
models the message recorded by `handleError` via the error event and the
`onError` callback. -/
structure OrchState where
  state : DebState
  currentRound : ℕ
  currentSpeakerIndex : ℕ
  room : Option Room
  lastError : Option String
  deriving Repr, DecidableEq

/-- Embedding of `DebateOrchestrator.handleError`: transition to the error
state and record the message; round and speaker index are untouched. -/
def handleError (s : OrchState) (msg : String) : OrchState :=
  { s with state := .error, lastError := some msg }

/-- Embedding of `DebateOrchestrator.validateRoomSettings` as the first error
it throws, if any: `maxRounds` outside 1..20, threshold outside [0.5, 1], and
a truthy (non-zero) `timeoutPerRound` below 30000 ms. -/
def validateRoomSettingsErr (room : Room) : Option String :=
  if room.maxRounds < 1 ∨ 20 < room.maxRounds then
    some "最大回合數必須在 1-20 之間"
  else if room.consensusThreshold < 1/2 ∨ 1 < room.consensusThreshold then
    some "共識門檻必須在 0.5-1 之間"
  else if room.timeoutPerRound ≠ 0 ∧ room.timeoutPerRound < 30000 then
    some "每回合超時時間不能少於 30 秒"
  else
    none

/-- Embedding of `DebateOrchestrator.initializeDebate`: reset counters, reject
fewer than two participants, validate settings (each failure is caught and
routed through `handleError`), then run the topic search (whose outcome is the
external `search` argument; a search failure is caught inside
`performTopicSearch`, which does not rethrow, so the code still reaches the
`READY` transition afterwards) and become ready. -/
def initializeDebate (search : Option String) (room : Room) (s : OrchState) : OrchState :=
  let s0 : OrchState :=
    { state := .initializing, currentRound := 0, currentSpeakerIndex := 0,
      room := some room, lastError := s.lastError }
  if room.participantCount < 2 then
    handleError s0 "至少需要 2 個替身參與辯論"
  else
    match validateRoomSettingsErr room with
    | some msg => handleError s0 msg
    | none =>
      let s1 : OrchState := { s0 with state := .searching }
      match search with
      | some _ => { handleError s1 "搜尋議題資訊失敗" with state := .ready }
      | none => { s1 with state := .ready }

/-- Scores produced by one round of `runSingleRound` in the case that every
generation call succeeds: each of the `np` participants speaks in room order;
the generation outcome is the external `oracle` (round, speaker index) ↦
tendency score. The faithful fallible round, in which a caught generation
failure exits mid-round, is `speakGo`; `speakGo_success` relates the two. -/
def roundScores (oracle : ℕ → ℕ → ℚ) (np r : ℕ) : List ℚ :=
  (List.range np).map (oracle r)

/-- Result of the `runDebateRounds` loop. -/
inductive CompletionReason where
  | consensus
  | maxRoundsReached
  deriving Repr, DecidableEq

/-- Final round counter, speaker index, statement history and exit reason of
the round loop. -/
structure RunRes where
  round : ℕ
  idx : ℕ
  hist : List ℚ
  reason : CompletionReason
  deriving Repr, DecidableEq

/-- Specialization of the `while` loop of `DebateOrchestrator.runDebateRounds`
to runs where every generation call succeeds: with fuel counting the remaining
rounds `r ≤ maxRounds`, each iteration runs a full round (`runSingleRound`
leaves the speaker index at the last participant), recomputes consensus over
the entire history and either completes or advances the round counter and
resets the speaker index to 0. The faithful loop with a fallible generation
oracle is `runRoundsAuxF`; `runRoundsAuxF_success` proves this specialization
agrees with it on all-success runs. -/
def runRoundsAux (oracle : ℕ → ℕ → ℚ) (np : ℕ) : ℕ → ℕ → ℕ → List ℚ → RunRes
  | 0, r, i, h => { round := r, idx := i, hist := h, reason := .maxRoundsReached }
  | fuel + 1, r, i, h =>
    let i1 := if np = 0 then i else np - 1
    let h1 := h ++ roundScores oracle np r
    if (calculateBasicConsensus h1).consensusReached then
      { round := r, idx := i1, hist := h1, reason := .consensus }
    else
      runRoundsAux oracle np fuel (r + 1) 0 h1

/-- All-success specialization of `DebateOrchestrator.runDebateRounds`
starting at round `r` with speaker index `i` and history `h`: the loop body
runs once per round while `r ≤ maxRounds`. The faithful fallible version is
`runDebateRoundsF`. -/
def runDebateRounds (oracle : ℕ → ℕ → ℚ) (np mr r i : ℕ) (h : List ℚ) : RunRes :=
  runRoundsAux oracle np (mr + 1 - r) r i h

/-- Embedding of `DebateOrchestrator.startDebate` (success path modelled with
the all-success loop; the claims stated on it concern only states in which the
loop is never reached): requires
an initialized room and the ready state — any precondition failure is caught
and routed through `handleError` — then sets round 1, speaker 0 and runs the
round loop to completion. -/
def startDebate (oracle : ℕ → ℕ → ℚ) (s : OrchState) : OrchState :=
  match s.room with
  | none => handleError s "未初始化會議室"
  | some room =>
    if s.state = .running then handleError s "辯論已在進行中"
    else if s.state ≠ .ready then handleError s "辯論尚未準備就緒"
    else
      let res := runDebateRounds oracle room.participantCount room.maxRounds 1 0 room.statements
      { state := .completed, currentRound := res.round, currentSpeakerIndex := res.idx,
        room := some { room with statements := res.hist }, lastError := s.lastError }

/-- Embedding of `DebateOrchestrator.pauseDebate`: throws (uncaught, leaving
the orchestrator untouched) unless running. -/
def pauseDebate (s : OrchState) : Except String OrchState :=
  if s.state ≠ .running then .error "只能暫停正在進行的辯論"
  else .ok { s with state := .paused }

/-- Embedding of `DebateOrchestrator.resumeDebate` (success path modelled
with the all-success loop): throws
(uncaught) unless a room exists and the state is paused; on success resumes
the round loop from the current round (the `for` loop restarts at speaker 0). -/
def resumeDebate (oracle : ℕ → ℕ → ℚ) (s : OrchState) : Except String OrchState :=
  match s.room with
  | none => .error "未初始化會議室"
  | some room =>
    if s.state ≠ .paused then .error "只能恢復已暫停的辯論"
    else
      let res := runDebateRounds oracle room.participantCount room.maxRounds s.currentRound 0 room.statements
      .ok { state := .completed, currentRound := res.round, currentSpeakerIndex := res.idx,
            room := some { room with statements := res.hist }, lastError := s.lastError }

/-- Embedding of `DebateOrchestrator.stopDebate`: a no-op in the idle and
completed states, otherwise an immediate transition to completed. -/
def stopDebate (s : OrchState) : OrchState :=
  if s.state = .idle ∨ s.state = .completed then s
  else { s with state := .completed }

/-- Embedding of `DebateOrchestrator.reset`: back to idle with all internal
state cleared. -/
def reset (s : OrchState) : OrchState :=
  { state := .idle, currentRound := 0, currentSpeakerIndex := 0,
    room := none, lastError := none }

/-! ### Voting sessions (`ConsensusManager`) -/

/-- Persona fields consumed by the voting manager: identity plus the inputs
of the weighted-voting weight formula. -/
structure Persona where
  id : String
  name : String
  ragFocusCount : ℕ
  temperature : ℚ
  deriving Repr, DecidableEq

/-- Voting methods of `ConsensusManager`. -/
inductive VotingMethod where
  | simple
  | weighted
  | ranked
  | consensus
  deriving Repr, DecidableEq

/-- One recorded vote. -/
structure Vote where
  personaId : String
  personaName : String
  score : ℕ
  weight : ℚ
  deriving Repr, DecidableEq

/-- Per-option voting result with its recomputed aggregates. -/
structure VotingResult where
  optionId : String
  votes : List Vote
  totalScore : ℚ
  averageScore : ℚ
  weightedScore : ℚ
  supportRate : ℚ
  deriving Repr, DecidableEq

/-- Session status values. -/
inductive VotingStatus where
  | pending
  | active
  | completed
  | cancelled
  deriving Repr, DecidableEq

/-- Voting session state; `endTime` and the final `consensusData` written by
`completeVotingSession` are metadata not touched by any claim and are not
modelled. -/
structure VotingSession where
  method : VotingMethod
  results : List VotingResult
  participants : List Persona
  status : VotingStatus
  deriving Repr, DecidableEq

/-- Embedding of `ConsensusManager.calculatePersonaWeight`: weight 1 except
for the weighted method, where `1 + 0.2·|ragFocus| + 0.3·(1 - temperature)`
is clamped to [0.5, 2]. -/
def calculatePersonaWeight (p : Persona) (method : VotingMethod) : ℚ :=
  match method with
  | .weighted =>
    max (1/2) (min 2 (1 + (p.ragFocusCount : ℚ) * (2/10) + (1 - p.temperature) * (3/10)))
  | _ => 1

/-- JS `vote.weight || 1`: a zero weight falls back to 1. -/
def voteWeight (v : Vote) : ℚ := if v.weight = 0 then 1 else v.weight

/-- Embedding of the per-result body of `ConsensusManager.recalculateResults`. -/
def recalcResult (r : VotingResult) : VotingResult :=
  if r.votes.isEmpty then
    { r with totalScore := 0, averageScore := 0, weightedScore := 0, supportRate := 0 }
  else
    let total : ℚ := r.votes.foldl (fun acc v => acc + (v.score : ℚ)) 0
    let avg := total / (r.votes.length : ℚ)
    let totalWeight := r.votes.foldl (fun acc v => acc + voteWeight v) 0
    let weighted := (r.votes.foldl (fun acc v => acc + (v.score : ℚ) * voteWeight v) 0) / totalWeight
    { r with totalScore := total, averageScore := avg, weightedScore := weighted,
             supportRate := avg / 10 }

/-- Embedding of `ConsensusManager.recalculateResults`. -/
def recalculateResults (s : VotingSession) : VotingSession :=
  { s with results := s.results.map recalcResult }

/-- Total number of stored votes across all options
(`results.reduce((sum, r) => sum + r.votes.length, 0)`). -/
def totalVotes (s : VotingSession) : ℕ :=
  (s.results.map (fun r => r.votes.length)).sum

/-- Embedding of `ConsensusManager.isVotingComplete`: the vote total — not
the number of distinct voters — reaches the participant count. -/
def isVotingComplete (s : VotingSession) : Bool :=
  s.participants.length ≤ totalVotes s

/-- Number of distinct personas having at least one stored vote (the quantity
the specification speaks about). -/
def distinctVoterCount (s : VotingSession) : ℕ :=
  ((s.results.flatMap (fun r => r.votes.map (fun v => v.personaId))).dedup).length

/-- Replaces the first result whose `optionId` matches, as the JS code does by
mutating the object produced by `results.find`. -/
def replaceFirstResult : List VotingResult → String → (VotingResult → VotingResult) → List VotingResult
  | [], _, _ => []
  | r :: rs, oid, f =>
    if r.optionId == oid then f r :: rs else r :: replaceFirstResult rs oid f

/-- Embedding of `ConsensusManager.submitVote`: inactive sessions report
`false`; an out-of-range score throws; unknown option or persona reports
`false`; otherwise the persona's previous votes on that option are removed,
the new weighted vote appended, aggregates recomputed, and the session
auto-completes when `isVotingComplete` holds. -/
def submitVote (session : VotingSession) (personaId optionId : String) (score : ℕ) :
    Except String (VotingSession × Bool) :=
  if session.status ≠ .active then .ok (session, false)
  else if score < 1 ∨ 10 < score then .error "投票分數必須在 1-10 之間"
  else
    match session.results.find? (fun r => r.optionId == optionId) with
    | none => .ok (session, false)
    | some _ =>
      match session.participants.find? (fun p => p.id == personaId) with
      | none => .ok (session, false)
      | some persona =>
        let weight := calculatePersonaWeight persona session.method
        let newVote : Vote :=
          { personaId := personaId, personaName := persona.name,
            score := score, weight := weight }
        let results1 := replaceFirstResult session.results optionId
          (fun r => { r with
            votes := r.votes.filter (fun v => v.personaId != personaId) ++ [newVote] })
        let session1 := recalculateResults { session with results := results1 }
        if isVotingComplete session1 then
          .ok ({ session1 with status := .completed }, true)
        else
          .ok (session1, true)

/-- Session after a `submitVote` call, ignoring the returned flag (an
exception leaves the session untouched). -/
def submitVoteState (session : VotingSession) (personaId optionId : String) (score : ℕ) :
    VotingSession :=
  match submitVote session personaId optionId score with
  | .ok (s1, _) => s1
  | .error _ => session

/-- Votes stored on the first result for an option. -/
def votesFor (s : VotingSession) (oid : String) : List Vote :=
  match s.results.find? (fun r => r.optionId == oid) with
  | some r => r.votes
  | none => []

/-- Two-option, two-participant session used as concrete input. -/
def sampleVotingSession : VotingSession :=
  { method := .simple,
    results := [
      { optionId := "o1", votes := [], totalScore := 0, averageScore := 0,
        weightedScore := 0, supportRate := 0 },
      { optionId := "o2", votes := [], totalScore := 0, averageScore := 0,
        weightedScore := 0, supportRate := 0 } ],
    participants := [
      { id := "a", name := "A", ragFocusCount := 1, temperature := 1/2 },
      { id := "b", name := "B", ragFocusCount := 1, temperature := 1/2 } ],
    status := .active }

/-- Exit kind of the faithful round loop: completion on consensus, the
after-loop max-rounds check, or stopping in the error state. -/
inductive ExitKind where
  | consensus
  | maxRounds
  | errored
  deriving Repr, DecidableEq

/-- Conversion from the all-success loop's completion reason. -/
def reasonExit : CompletionReason → ExitKind
  | .consensus => .consensus
  | .maxRoundsReached => .maxRounds

/-- Result of the faithful round loop. -/
structure RunResF where
  state : DebState
  round : ℕ
  idx : ℕ
  hist : List ℚ
  exit : ExitKind
  deriving Repr, DecidableEq

/-- Faithful embedding of the `for` loop of `runSingleRound` with a fallible
generation oracle (`none` = the generation call fails): the speaker index is
set before each generation; on a failure `generatePersonaStatement` catches
the error and calls `handleError` (state becomes error, no statement is
appended, no rethrow), so the loop guard `state === RUNNING` exits the round
mid-way. Arguments: remaining speakers, current index, index value before the
loop body ran (kept when no speaker runs). Returns the appended scores, the
final speaker index and whether a failure occurred. -/
def speakGo (oracle : ℕ → ℕ → Option ℚ) (r : ℕ) : ℕ → ℕ → ℕ → List ℚ × ℕ × Bool
  | 0, _, iprev => ([], iprev, false)
  | rem + 1, i, _ =>
    match oracle r i with
    | some q =>
      match speakGo oracle r rem (i + 1) i with
      | (qs, idxf, err) => (q :: qs, idxf, err)
    | none => ([], i, true)

/-- Faithful embedding of the `while` loop of `runDebateRounds` including the
swallowed-failure path: after `runSingleRound` returns — even from a partial
round left by a caught generation failure — consensus is recomputed over the
entire statement history, and a reached consensus transitions to completed
(overwriting the error state); otherwise the round counter advances and the
speaker index resets to 0, after which the loop guard stops on the error
state and the after-loop check still completes the debate when the advanced
round counter exceeds `maxRounds`. The fuel-zero case is the after-loop check
(reached with `r = maxRounds + 1` along the running path). -/
def runRoundsAuxF (oracle : ℕ → ℕ → Option ℚ) (np mr : ℕ) : ℕ → ℕ → ℕ → List ℚ → RunResF
  | 0, r, i, h =>
    if mr < r then { state := .completed, round := r, idx := i, hist := h, exit := .maxRounds }
    else { state := .running, round := r, idx := i, hist := h, exit := .maxRounds }
  | fuel + 1, r, i, h =>
    match speakGo oracle r np 0 i with
    | (qs, idxf, err) =>
      let h1 := h ++ qs
      if (calculateBasicConsensus h1).consensusReached then
        { state := .completed, round := r, idx := idxf, hist := h1, exit := .consensus }
      else if err then
        if mr < r + 1 then
          { state := .completed, round := r + 1, idx := 0, hist := h1, exit := .maxRounds }
        else
          { state := .error, round := r + 1, idx := 0, hist := h1, exit := .errored }
      else
        runRoundsAuxF oracle np mr fuel (r + 1) 0 h1

/-- Faithful embedding of `DebateOrchestrator.runDebateRounds` with a fallible
generation oracle, starting at round `r` with speaker index `i` and history
`h`. -/
def runDebateRoundsF (oracle : ℕ → ℕ → Option ℚ) (np mr r i : ℕ) (h : List ℚ) : RunResF :=
  runRoundsAuxF oracle np mr (mr + 1 - r) r i h

/-- Oracle whose only successful generation is round 1, speaker 0: it drives
the run in which the second speaker's generation fails after the first scored
10. -/
def failingOracle : ℕ → ℕ → Option ℚ :=
  fun r j => if r = 1 ∧ j = 0 then some 10 else none

/-! ### Supporting lemmas and claim theorems -/

/-- Folding addition from an arbitrary accumulator equals the accumulator plus
the list sum. -/
lemma foldl_add_eq_add_sum (l : List ℚ) : ∀ a : ℚ, l.foldl (· + ·) a = a + l.sum := by
  induction l with
  | nil => intro a; simp
  | cons x xs ih =>
    intro a
    simp only [List.foldl_cons, List.sum_cons, ih (a + x)]
    ring

/-- Summing `10 - s` over a list equals `10 * n` minus the sum. -/
lemma sum_map_ten_sub (l : List ℚ) :
    (l.map (fun s => 10 - s)).sum = 10 * (l.length : ℚ) - l.sum := by
  induction l with
  | nil => simp
  | cons x xs ih =>
    simp only [List.map_cons, List.sum_cons, ih, List.length_cons]
    push_cast
    ring

/-- C1: for every non-empty score list with values in [1,10],
`calculateBasicConsensus` returns `supportRate = sum / (10 n)` and
`opposeRate = sum (10 - s) / (9 n)`, and `consensusReached` holds exactly when
one of the rates exceeds the default threshold `0.7`; moreover `[10,10,10]`
yields `supportRate = 1` with consensus and `[1,1,1]` yields `opposeRate = 1`
with consensus. -/
theorem calculateBasicConsensus_spec (scores : List ℚ)
    (hne : scores ≠ [])
    (hrange : ∀ s ∈ scores, 1 ≤ s ∧ s ≤ 10) :
    (calculateBasicConsensus scores).supportRate =
        scores.sum / (10 * (scores.length : ℚ)) ∧
    (calculateBasicConsensus scores).opposeRate =
        (scores.map (fun s => 10 - s)).sum / (9 * (scores.length : ℚ)) ∧
    ((calculateBasicConsensus scores).consensusReached = true ↔
        7/10 < (calculateBasicConsensus scores).supportRate ∨
        7/10 < (calculateBasicConsensus scores).opposeRate) ∧
    (calculateBasicConsensus scores).threshold = 7/10 ∧
    (calculateBasicConsensus [(10:ℚ),10,10]).supportRate = 1 ∧
    (calculateBasicConsensus [(10:ℚ),10,10]).consensusReached = true ∧
    (calculateBasicConsensus [(1:ℚ),1,1]).opposeRate = 1 ∧
    (calculateBasicConsensus [(1:ℚ),1,1]).consensusReached = true := by
  have hisEmpty : scores.isEmpty = false := by
    simpa [List.isEmpty_iff] using hne
  have hfold : scores.foldl (· + ·) 0 = scores.sum := by
    rw [foldl_add_eq_add_sum, zero_add]
  refine ⟨?_, ?_, ?_, ?_, ?_, ?_, ?_, ?_⟩
  · simp only [calculateBasicConsensus, hisEmpty, Bool.false_eq_true, if_false, hfold]
    ring_nf
  · simp only [calculateBasicConsensus, hisEmpty, Bool.false_eq_true, if_false, hfold,
      sum_map_ten_sub]
    ring_nf
  · simp only [calculateBasicConsensus, hisEmpty, Bool.false_eq_true, if_false, hfold]
    simp [Bool.or_eq_true, decide_eq_true_iff]
  · simp [calculateBasicConsensus, hisEmpty, Bool.false_eq_true]
  · norm_num [calculateBasicConsensus]
  · norm_num [calculateBasicConsensus]
  · norm_num [calculateBasicConsensus]
  · norm_num [calculateBasicConsensus]

/-- Witness for C1 at the concrete score list `[3, 7]`. -/
theorem calculateBasicConsensus_spec_witness :
    (calculateBasicConsensus [(3:ℚ),7]).supportRate =
      ([(3:ℚ),7].sum) / (10 * (([(3:ℚ),7] : List ℚ).length : ℚ)) :=
  (calculateBasicConsensus_spec [3,7] (by simp)
    (by norm_num [List.forall_mem_cons])).1

/-- C4 counterexample: on `[5,5,5]` the code returns `opposeRate = 5/9`, which
exceeds `1/2` and is therefore not approximately `0.444` as the claim states
(the code divides `10 n - sum` by `9 n`, giving `15/27`). -/
theorem basicConsensus_five_opposeRate_counterexample :
    (calculateBasicConsensus [(5:ℚ),5,5]).opposeRate = 5/9 ∧
    (1:ℚ)/2 < (calculateBasicConsensus [(5:ℚ),5,5]).opposeRate := by
  norm_num [calculateBasicConsensus]

/-- C4 amended: `calculateBasicConsensus [5,5,5]` returns `supportRate = 1/2`,
`opposeRate = 5/9` (≈ 0.556, not 0.444) and `consensusReached = false`. -/
theorem basicConsensus_five_values :
    (calculateBasicConsensus [(5:ℚ),5,5]).supportRate = 1/2 ∧
    (calculateBasicConsensus [(5:ℚ),5,5]).opposeRate = 5/9 ∧
    (calculateBasicConsensus [(5:ℚ),5,5]).consensusReached = false := by
  norm_num [calculateBasicConsensus]

/-- C10: on the empty score list `calculateBasicConsensus` is total and
returns zero rates, no consensus, threshold `0.7` and an empty score map. -/
theorem basicConsensus_empty :
    calculateBasicConsensus [] =
      { supportRate := 0, opposeRate := 0, consensusReached := false,
        threshold := 7/10, finalScores := [] } := rfl


lemma isJsSpace_eq_false {c : Char} (h : isDigitChar c = true) : isJsSpace c = false := by
  simp only [isDigitChar, Bool.and_eq_true, decide_eq_true_eq] at h
  simp only [isJsSpace, Bool.or_eq_false_iff, Bool.and_eq_false_iff, decide_eq_false_iff_not]
  omega

lemma dropLabel_eq_some {p l r : List Char} (h : dropLabel p l = some r) : l = p ++ r := by
  induction p generalizing l with
  | nil =>
    simp only [dropLabel, Option.some.injEq] at h
    simp [h]
  | cons x ps ih =>
    cases l with
    | nil => simp [dropLabel] at h
    | cons c cs =>
      simp only [dropLabel] at h
      by_cases hcx : c = x
      · rw [if_pos hcx] at h
        subst hcx
        rw [List.cons_append, ih h]
      · rw [if_neg hcx] at h
        exact absurd h (by simp)

lemma dropLabel_append (p r : List Char) : dropLabel p (p ++ r) = some r := by
  induction p with
  | nil => rfl
  | cons x ps ih => simp [dropLabel, ih]

lemma dropWhile_append_cons (q : Char → Bool) (ws : List Char) (d : Char) (r : List Char)
    (hws : ∀ c ∈ ws, q c = true) (hd : q d = false) :
    (ws ++ d :: r).dropWhile q = d :: r := by
  induction ws with
  | nil => simp [List.dropWhile_cons, hd]
  | cons x xs ih =>
    have hx : q x = true := hws x (List.mem_cons_self x xs)
    simp only [List.cons_append, List.dropWhile_cons, hx, if_true]
    exact ih (fun c hc => hws c (List.mem_cons_of_mem x hc))

lemma takeWhile_append_cons (q : Char → Bool) (ws : List Char) (d : Char) (r : List Char)
    (hws : ∀ c ∈ ws, q c = true) (hd : q d = false) :
    (ws ++ d :: r).takeWhile q = ws := by
  induction ws with
  | nil => simp [List.takeWhile_cons, hd]
  | cons x xs ih =>
    have hx : q x = true := hws x (List.mem_cons_self x xs)
    simp only [List.cons_append, List.takeWhile_cons, hx, if_true]
    rw [ih (fun c hc => hws c (List.mem_cons_of_mem x hc))]

lemma mem_takeWhile (q : Char → Bool) (l : List Char) :
    ∀ x ∈ l.takeWhile q, q x = true := by
  induction l with
  | nil => simp
  | cons c cs ih =>
    intro x hx
    rw [List.takeWhile_cons] at hx
    by_cases hc : q c = true
    · rw [if_pos hc] at hx
      rcases List.mem_cons.mp hx with rfl | hx2
      · exact hc
      · exact ih x hx2
    · rw [if_neg hc] at hx
      simp at hx

lemma matchScoreAt_complete (col : Char) (ws digits aft : List Char)
    (h : IsScoreInstance col ws digits) :
    matchScoreAt (scoreLabel ++ col :: (ws ++ digits ++ '/' :: '1' :: '0' :: aft)) =
      some (digitsToNat digits, aft) := by
  obtain ⟨hcol, hws, hne, hdig⟩ := h
  obtain ⟨d, ds, rfl⟩ : ∃ d ds, digits = d :: ds := by
    cases digits with
    | nil => exact absurd rfl hne
    | cons d ds => exact ⟨d, ds, rfl⟩
  have hd : isDigitChar d = true := hdig d (List.mem_cons_self d ds)
  have hdspace : isJsSpace d = false := isJsSpace_eq_false hd
  have hslash : isDigitChar '/' = false := by decide
  unfold matchScoreAt
  rw [dropLabel_append]
  simp only [hcol, if_true]
  have e1 : ws ++ (d :: ds) ++ '/' :: '1' :: '0' :: aft
      = ws ++ d :: (ds ++ '/' :: '1' :: '0' :: aft) := by simp
  rw [e1, dropWhile_append_cons isJsSpace ws d _ hws hdspace]
  have e2 : d :: (ds ++ '/' :: '1' :: '0' :: aft)
      = (d :: ds) ++ '/' :: '1' :: '0' :: aft := by simp
  rw [e2,
    takeWhile_append_cons isDigitChar (d :: ds) '/' _ hdig hslash,
    dropWhile_append_cons isDigitChar (d :: ds) '/' _ hdig hslash]
  simp

lemma matchScoreAt_sound {l : List Char} {n : ℕ} {aft : List Char}
    (h : matchScoreAt l = some (n, aft)) :
    ∃ col ws digits, IsScoreInstance col ws digits ∧
      l = scoreLabel ++ col :: (ws ++ digits ++ '/' :: '1' :: '0' :: aft) ∧
      n = digitsToNat digits := by
  unfold matchScoreAt at h
  cases hdl : dropLabel scoreLabel l with
  | none => rw [hdl] at h; simp at h
  | some l1 =>
    rw [hdl] at h
    cases l1 with
    | nil => simp at h
    | cons c l2 =>
      dsimp only at h
      by_cases hc : isColonChar c = true
      · rw [if_pos hc] at h
        set l3 := l2.dropWhile isJsSpace with hl3
        set digits := l3.takeWhile isDigitChar with hdigits
        set l4 := l3.dropWhile isDigitChar with hl4
        set ws0 := l2.takeWhile isJsSpace with hws0
        by_cases hemp : digits.isEmpty = true
        · rw [if_pos hemp] at h; simp at h
        · rw [if_neg hemp] at h
          have hrec2 : l2 = ws0 ++ l3 := by
            rw [hws0, hl3, List.takeWhile_append_dropWhile]
          have hrec3 : l3 = digits ++ l4 := by
            rw [hdigits, hl4, List.takeWhile_append_dropWhile]
          obtain ⟨a, b, c2, l5, hl4shape, habc, hn, haft⟩ :
              ∃ a b c2 l5, l4 = a :: b :: c2 :: l5 ∧
                (a = '/' ∧ b = '1' ∧ c2 = '0') ∧
                n = digitsToNat digits ∧ aft = l5 := by
            cases h4 : l4 with
            | nil => rw [h4] at h; simp at h
            | cons a rest1 =>
              cases h5 : rest1 with
              | nil => rw [h4, h5] at h; simp at h
              | cons b rest2 =>
                cases h6 : rest2 with
                | nil => rw [h4, h5, h6] at h; simp at h
                | cons c2 l5 =>
                  rw [h4, h5, h6] at h
                  dsimp only at h
                  by_cases habc : a = '/' ∧ b = '1' ∧ c2 = '0'
                  · rw [if_pos (by simp [habc.1, habc.2.1, habc.2.2])] at h
                    simp only [Option.some.injEq, Prod.mk.injEq] at h
                    exact ⟨a, b, c2, l5, rfl, habc, h.1.symm, h.2.symm⟩
                  · rw [if_neg (by simpa using habc)] at h
                    simp at h
          obtain ⟨rfl, rfl, rfl⟩ := habc
          subst haft
          refine ⟨c, ws0, digits,
            ⟨hc, hws0 ▸ mem_takeWhile _ _, ?_, hdigits ▸ mem_takeWhile _ _⟩, ?_, hn⟩
          · intro heq
            rw [heq] at hemp
            exact hemp rfl
          · rw [dropLabel_eq_some hdl, hrec2, hrec3, hl4shape]
            simp
      · rw [if_neg hc] at h; simp at h

lemma findScore_complete : ∀ (pre content aft : List Char),
    ScoreSplit content pre aft → (findScore content).isSome = true := by
  intro pre
  induction pre with
  | nil =>
    intro content aft h
    obtain ⟨col, ws, digits, hinst, hshape⟩ := h
    have hm := matchScoreAt_complete col ws digits aft hinst
    subst hshape
    simp only [List.nil_append] at hm ⊢
    simp only [scoreLabel, List.cons_append] at hm ⊢
    rw [findScore, hm]
    simp
  | cons x pres ih =>
    intro content aft h
    obtain ⟨col, ws, digits, hinst, hshape⟩ := h
    subst hshape
    have hrest : ScoreSplit (pres ++ scoreLabel ++ col :: (ws ++ digits ++ '/' :: '1' :: '0' :: aft)) pres aft :=
      ⟨col, ws, digits, hinst, rfl⟩
    have hih := ih _ aft hrest
    simp only [List.cons_append, List.append_assoc] at hih ⊢
    rw [findScore]
    cases hma : matchScoreAt (x :: (pres ++ (scoreLabel ++ col :: (ws ++ (digits ++ '/' :: '1' :: '0' :: aft))))) with
    | some p => simp
    | none =>
      cases hfs : findScore (pres ++ (scoreLabel ++ col :: (ws ++ (digits ++ '/' :: '1' :: '0' :: aft)))) with
      | some q => obtain ⟨n1, bef1, aft1⟩ := q; simp
      | none => rw [hfs] at hih; simp at hih

lemma findScore_sound : ∀ (content : List Char) {n : ℕ} {bef aft : List Char},
    findScore content = some (n, bef, aft) → ScoreSplit content bef aft := by
  intro content
  induction content with
  | nil => intro n bef aft h; simp [findScore] at h
  | cons c rest ih =>
    intro n bef aft h
    rw [findScore] at h
    cases hma : matchScoreAt (c :: rest) with
    | some p =>
      obtain ⟨n0, aft0⟩ := p
      rw [hma] at h
      simp only [Option.some.injEq, Prod.mk.injEq] at h
      obtain ⟨rfl, rfl, rfl⟩ := h
      obtain ⟨col, ws, digits, hinst, hshape, -⟩ := matchScoreAt_sound hma
      exact ⟨col, ws, digits, hinst, by rw [hshape]; simp⟩
    | none =>
      rw [hma] at h
      cases hfs : findScore rest with
      | none => rw [hfs] at h; simp at h
      | some q =>
        obtain ⟨n1, bef1, aft1⟩ := q
        rw [hfs] at h
        simp only [Option.some.injEq, Prod.mk.injEq] at h
        obtain ⟨rfl, rfl, rfl⟩ := h
        obtain ⟨col, ws, digits, hinst, hshape⟩ := ih hfs
        refine ⟨col, ws, digits, hinst, ?_⟩
        rw [hshape]
        simp

lemma hasScoreLine_iff (content : List Char) :
    HasScoreLine content ↔ (findScore content).isSome = true := by
  constructor
  · rintro ⟨pre, aft, h⟩
    exact findScore_complete pre content aft h
  · intro h
    cases hfs : findScore content with
    | none => rw [hfs] at h; simp at h
    | some q =>
      obtain ⟨n, bef, aft⟩ := q
      exact ⟨bef, aft, findScore_sound content hfs⟩

/-- C7: parsing a text containing no tendency-score line yields the default
score 5 (no failure), and when a score line is present the first occurrence
is stripped from the returned `cleanContent`. -/
theorem parsePersonaResponse_spec (content : List Char) :
    (¬ HasScoreLine content →
        (parsePersonaResponse content).tendencyScore = 5 ∧
        (parsePersonaResponse content).cleanContent = jsTrim content) ∧
    (HasScoreLine content →
        ∃ pre aft, ScoreSplit content pre aft ∧
          (parsePersonaResponse content).cleanContent = jsTrim (pre ++ aft)) := by
  constructor
  · intro h
    have hfs : findScore content = none := by
      cases hfs : findScore content with
      | none => rfl
      | some q =>
        exact absurd ((hasScoreLine_iff content).mpr (by rw [hfs]; rfl)) h
    simp [parsePersonaResponse, hfs]
  · intro h
    have hsome := (hasScoreLine_iff content).mp h
    cases hfs : findScore content with
    | none => rw [hfs] at hsome; simp at hsome
    | some q =>
      obtain ⟨n, bef, aft⟩ := q
      exact ⟨bef, aft, findScore_sound content hfs, by simp [parsePersonaResponse, hfs]⟩

/-- Witness for C7 at the concrete score-free text `hi`. -/
theorem parsePersonaResponse_spec_witness :
    (parsePersonaResponse ['h', 'i']).tendencyScore = 5 :=
  ((parsePersonaResponse_spec ['h', 'i']).1 (fun h => by
    have hsome := (hasScoreLine_iff ['h', 'i']).mp h
    rw [show findScore ['h', 'i'] = none from rfl] at hsome
    simp at hsome)).1

/-- C8 counterexample: the text `傾向度分數：0/10` parses to tendency score 0,
outside the claimed range 1..10 — the source does not clamp the matched
number. -/
theorem parseScore_zero_counterexample :
    (parsePersonaResponse ['傾', '向', '度', '分', '數', '：', '0', '/', '1', '0']).tendencyScore = 0 ∧
    (parsePersonaResponse ['傾', '向', '度', '分', '數', '：', '0', '/', '1', '0']).tendencyScore < 1 := by
  decide

/-- C8 amended: the parsed tendency score lies in 1..10 provided the matched
score-line number (when one is found) lies in 1..10; with no score line the
default 5 is returned. The parser does not clamp an out-of-range number. -/
theorem parsePersonaResponse_score_range (content : List Char)
    (h : ∀ n pre aft, findScore content = some (n, pre, aft) → 1 ≤ n ∧ n ≤ 10) :
    1 ≤ (parsePersonaResponse content).tendencyScore ∧
    (parsePersonaResponse content).tendencyScore ≤ 10 := by
  cases hf : findScore content with
  | none => simp [parsePersonaResponse, hf]
  | some t =>
    obtain ⟨n, pre, aft⟩ := t
    have hn := h n pre aft hf
    simpa [parsePersonaResponse, hf] using hn

/-- Witness for C8 amended at the concrete text `傾向度分數：7/10`. -/
theorem parsePersonaResponse_score_range_witness :
    1 ≤ (parsePersonaResponse ['傾', '向', '度', '分', '數', '：', '7', '/', '1', '0']).tendencyScore ∧
    (parsePersonaResponse ['傾', '向', '度', '分', '數', '：', '7', '/', '1', '0']).tendencyScore ≤ 10 :=
  parsePersonaResponse_score_range _ (by
    intro n pre aft h
    rw [show findScore ['傾', '向', '度', '分', '數', '：', '7', '/', '1', '0']
        = some (7, ([], [])) from rfl] at h
    simp only [Option.some.injEq, Prod.mk.injEq] at h
    obtain ⟨h1, -, -⟩ := h
    omega)

/-- C9: calling `startDebate` in any state other than ready fails (the caught
exception routes through `handleError` into the error state) and leaves the
round counter and the speaker index unchanged. -/
theorem startDebate_requires_ready (oracle : ℕ → ℕ → ℚ) (s : OrchState)
    (h : s.state ≠ .ready) :
    (startDebate oracle s).state = .error ∧
    (startDebate oracle s).currentRound = s.currentRound ∧
    (startDebate oracle s).currentSpeakerIndex = s.currentSpeakerIndex := by
  cases hr : s.room with
  | none => simp [startDebate, hr, handleError]
  | some room =>
    by_cases hrun : s.state = .running
    · simp [startDebate, hr, hrun, handleError]
    · simp [startDebate, hr, hrun, h, handleError]

/-- Witness for C9 in the concrete idle state. -/
theorem startDebate_requires_ready_witness :
    (startDebate (fun _ _ => 5)
      { state := .idle, currentRound := 0, currentSpeakerIndex := 0,
        room := none, lastError := none }).state = .error :=
  (startDebate_requires_ready (fun _ _ => 5) _ (by decide)).1

/-- C5 counterexample: `stopDebate` invoked in the error state transitions
to completed, not error — the error state is not terminal under `stopDebate`
(the source only early-returns for idle and completed). -/
theorem errorState_stop_counterexample :
    (stopDebate
      { state := .error, currentRound := 3, currentSpeakerIndex := 1,
        room := none, lastError := none }).state = .completed ∧
    DebState.completed ≠ DebState.error := by
  constructor
  · rfl
  · decide

/-- C5 amended: in the error state, `startDebate` ends in the error state,
`pauseDebate` and `resumeDebate` throw without touching the state, `reset`
returns to idle — but `stopDebate` transitions the error state to completed. -/
theorem errorState_transitions (oracle : ℕ → ℕ → ℚ) (s : OrchState)
    (h : s.state = .error) :
    (startDebate oracle s).state = .error ∧
    (startDebate oracle s).currentRound = s.currentRound ∧
    (∃ msg, pauseDebate s = .error msg) ∧
    (∃ msg, resumeDebate oracle s = .error msg) ∧
    (stopDebate s).state = .completed ∧
    (reset s).state = .idle := by
  have hnotready : s.state ≠ .ready := by rw [h]; decide
  obtain ⟨h1, h2, -⟩ := startDebate_requires_ready oracle s hnotready
  refine ⟨h1, h2, ?_, ?_, ?_, ?_⟩
  · exact ⟨"只能暫停正在進行的辯論", by simp [pauseDebate, h]⟩
  · cases hr : s.room with
    | none => exact ⟨"未初始化會議室", by simp [resumeDebate, hr]⟩
    | some room => exact ⟨"只能恢復已暫停的辯論", by simp [resumeDebate, hr, h]⟩
  · simp [stopDebate, h]
  · simp [reset]

/-- Witness for C5 amended at a concrete error state. -/
theorem errorState_transitions_witness :
    (stopDebate
      { state := .error, currentRound := 2, currentSpeakerIndex := 0,
        room := none, lastError := some "x" }).state = .completed :=
  (errorState_transitions (fun _ _ => 5)
    { state := .error, currentRound := 2, currentSpeakerIndex := 0,
      room := none, lastError := some "x" } rfl).2.2.2.2.1

/-- C6 counterexample: a room with `timeoutPerRound = 0` (below 30000 ms) is
accepted by `initializeDebate` and reaches the ready state, because the
validation guard first tests JS truthiness of `timeoutPerRound` and 0 is
falsy; the claim requires rejection of every value below 30000. -/
theorem initializeDebate_timeout_zero_counterexample :
    (initializeDebate none
      { participantCount := 2, maxRounds := 5, consensusThreshold := 7/10,
        timeoutPerRound := 0, statements := [] }
      { state := .idle, currentRound := 0, currentSpeakerIndex := 0,
        room := none, lastError := none }).state = .ready ∧
    (0 : ℕ) < 30000 ∧ DebState.ready ≠ DebState.error := by
  refine ⟨?_, by norm_num, by decide⟩
  norm_num [initializeDebate, validateRoomSettingsErr]

/-- C6 amended: `initializeDebate` ends in the error state with a recorded
message whenever the room has fewer than 2 participants, `maxRounds` is
outside 1..20, the threshold is outside [0.5, 1], or `timeoutPerRound` is
non-zero and below 30000 ms (a zero timeout is skipped by the truthiness
guard); in particular `timeoutPerRound = 29999` is rejected and `30000`
passes validation and reaches the ready state. -/
theorem initializeDebate_validation (search : Option String) (room : Room) (s : OrchState)
    (h : room.participantCount < 2 ∨ room.maxRounds < 1 ∨ 20 < room.maxRounds ∨
         room.consensusThreshold < 1/2 ∨ 1 < room.consensusThreshold ∨
         (room.timeoutPerRound ≠ 0 ∧ room.timeoutPerRound < 30000)) :
    (initializeDebate search room s).state = .error ∧
    (initializeDebate search room s).lastError.isSome = true ∧
    (initializeDebate none
      { participantCount := 2, maxRounds := 5, consensusThreshold := 7/10,
        timeoutPerRound := 29999, statements := [] }
      { state := .idle, currentRound := 0, currentSpeakerIndex := 0,
        room := none, lastError := none }).state = .error ∧
    (initializeDebate none
      { participantCount := 2, maxRounds := 5, consensusThreshold := 7/10,
        timeoutPerRound := 30000, statements := [] }
      { state := .idle, currentRound := 0, currentSpeakerIndex := 0,
        room := none, lastError := none }).state = .ready := by
  have hmain : (initializeDebate search room s).state = .error ∧
      (initializeDebate search room s).lastError.isSome = true := by
    by_cases h1 : room.participantCount < 2
    · constructor <;> simp [initializeDebate, h1, handleError]
    · have hset : (validateRoomSettingsErr room).isSome = true := by
        unfold validateRoomSettingsErr
        by_cases c1 : room.maxRounds < 1 ∨ 20 < room.maxRounds
        · rw [if_pos c1]; rfl
        · by_cases c2 : room.consensusThreshold < 1/2 ∨ 1 < room.consensusThreshold
          · rw [if_neg c1, if_pos c2]; rfl
          · by_cases c3 : room.timeoutPerRound ≠ 0 ∧ room.timeoutPerRound < 30000
            · rw [if_neg c1, if_neg c2, if_pos c3]; rfl
            · exfalso; tauto
      obtain ⟨msg, hmsg⟩ := Option.isSome_iff_exists.mp hset
      constructor <;> simp [initializeDebate, h1, hmsg, handleError]
  refine ⟨hmain.1, hmain.2, ?_, ?_⟩
  · norm_num [initializeDebate, validateRoomSettingsErr, handleError]
  · norm_num [initializeDebate, validateRoomSettingsErr]

/-- Witness for C6 amended at a concrete room with `timeoutPerRound = 29999`. -/
theorem initializeDebate_validation_witness :
    (initializeDebate none
      { participantCount := 2, maxRounds := 5, consensusThreshold := 7/10,
        timeoutPerRound := 29999, statements := [] }
      { state := .idle, currentRound := 0, currentSpeakerIndex := 0,
        room := none, lastError := none }).state = .error :=
  (initializeDebate_validation none
    { participantCount := 2, maxRounds := 5, consensusThreshold := 7/10,
      timeoutPerRound := 29999, statements := [] }
    { state := .idle, currentRound := 0, currentSpeakerIndex := 0,
      room := none, lastError := none }
    (by norm_num)).1

lemma flatMap_range_succ_shift (g : ℕ → List ℚ) (j r : ℕ) :
    (List.range (j + 1)).flatMap (fun t => g (r + t)) =
      g r ++ (List.range j).flatMap (fun t => g (r + 1 + t)) := by
  rw [List.range_succ_eq_map, List.flatMap_cons, Nat.add_zero, List.flatMap_map]
  have harg : (fun a => g (r + Nat.succ a)) = fun t => g (r + 1 + t) := by
    funext t
    congr 1
    omega
  rw [harg]

lemma length_flatMap_roundScores (oracle : ℕ → ℕ → ℚ) (np r : ℕ) : ∀ j : ℕ,
    ((List.range j).flatMap (fun t => roundScores oracle np (r + t))).length = j * np := by
  intro j
  induction j with
  | zero => simp
  | succ j ih =>
    rw [List.range_succ, List.flatMap_append, List.length_append, ih]
    simp [roundScores]
    ring

lemma runRoundsAux_spec (oracle : ℕ → ℕ → ℚ) (np : ℕ) (hnp : 1 ≤ np) :
    ∀ (fuel r i : ℕ) (h : List ℚ),
      ((runRoundsAux oracle np fuel r i h).reason = .consensus →
        ∃ k, k < fuel ∧
          (runRoundsAux oracle np fuel r i h).round = r + k ∧
          (runRoundsAux oracle np fuel r i h).idx = np - 1 ∧
          (runRoundsAux oracle np fuel r i h).hist =
            h ++ (List.range (k + 1)).flatMap (fun t => roundScores oracle np (r + t)) ∧
          (calculateBasicConsensus
            ((runRoundsAux oracle np fuel r i h).hist)).consensusReached = true) ∧
      ((runRoundsAux oracle np fuel r i h).reason = .maxRoundsReached →
        (runRoundsAux oracle np fuel r i h).round = r + fuel ∧
        (runRoundsAux oracle np fuel r i h).idx = (if fuel = 0 then i else 0) ∧
        (runRoundsAux oracle np fuel r i h).hist =
          h ++ (List.range fuel).flatMap (fun t => roundScores oracle np (r + t)) ∧
        ∀ k, k < fuel →
          (calculateBasicConsensus
            (h ++ (List.range (k + 1)).flatMap
              (fun t => roundScores oracle np (r + t)))).consensusReached = false) := by
  intro fuel
  induction fuel with
  | zero =>
    intro r i h
    constructor
    · intro hcon
      simp [runRoundsAux] at hcon
    · intro _
      refine ⟨by simp [runRoundsAux], by simp [runRoundsAux], by simp [runRoundsAux], ?_⟩
      intro k hk
      exact absurd hk (Nat.not_lt_zero k)
  | succ fuel ih =>
    intro r i h
    have hnp0 : np ≠ 0 := by omega
    have hr1 : ∀ rr : ℕ, (List.range 1).flatMap (fun t => roundScores oracle np (rr + t)) =
        roundScores oracle np rr := by
      intro rr
      simp [List.range_succ]
    by_cases hc : (calculateBasicConsensus (h ++ roundScores oracle np r)).consensusReached = true
    · have hrw : runRoundsAux oracle np (fuel + 1) r i h =
          { round := r, idx := np - 1, hist := h ++ roundScores oracle np r,
            reason := .consensus } := by
        simp [runRoundsAux, hc, hnp0]
      constructor
      · intro _
        refine ⟨0, Nat.succ_pos fuel, ?_, ?_, ?_, ?_⟩ <;> rw [hrw]
        · simp
        · exact congrArg (fun x => h ++ x) (hr1 r).symm
        · exact hc
      · intro hmr
        rw [hrw] at hmr
        simp at hmr
    · have hrw : runRoundsAux oracle np (fuel + 1) r i h =
          runRoundsAux oracle np fuel (r + 1) 0 (h ++ roundScores oracle np r) := by
        simp [runRoundsAux, hc]
      obtain ⟨ihc, ihm⟩ := ih (r + 1) 0 (h ++ roundScores oracle np r)
      have hshift : ∀ j : ℕ,
          (h ++ roundScores oracle np r) ++
              (List.range (j + 1)).flatMap (fun t => roundScores oracle np (r + 1 + t)) =
            h ++ (List.range (j + 2)).flatMap (fun t => roundScores oracle np (r + t)) := by
        intro j
        rw [flatMap_range_succ_shift (fun t => roundScores oracle np t) (j + 1) r]
        simp [List.append_assoc]
      constructor
      · intro hcon
        rw [hrw] at hcon
        obtain ⟨k, hk, h1, h2, h3, h4⟩ := ihc hcon
        refine ⟨k + 1, by omega, ?_, ?_, ?_, ?_⟩ <;> rw [hrw]
        · rw [h1]; omega
        · exact h2
        · rw [h3, hshift k]
        · exact h4
      · intro hmr
        rw [hrw] at hmr
        obtain ⟨h1, h2, h3, h4⟩ := ihm hmr
        refine ⟨?_, ?_, ?_, ?_⟩
        · rw [hrw, h1]; omega
        · rw [hrw, h2]
          by_cases hf : fuel = 0 <;> simp [hf]
        · rw [hrw, h3]
          cases fuel with
          | zero => simp [List.range_succ]
          | succ f2 => rw [hshift f2]
        · intro k hk
          cases k with
          | zero =>
            simp only [hr1]
            exact Bool.eq_false_iff.mpr hc
          | succ k2 =>
            have := h4 k2 (by omega)
            rw [hshift k2] at this
            exact this
    

lemma recalcResult_votes (r : VotingResult) : (recalcResult r).votes = r.votes := by
  unfold recalcResult
  split <;> rfl

lemma recalcResult_optionId (r : VotingResult) :
    (recalcResult r).optionId = r.optionId := by
  unfold recalcResult
  split <;> rfl

lemma find?_map_recalc (rs : List VotingResult) (oid : String) :
    (rs.map recalcResult).find? (fun r => r.optionId == oid)
      = (rs.find? (fun r => r.optionId == oid)).map recalcResult := by
  induction rs with
  | nil => rfl
  | cons r rs ih =>
    by_cases h : (r.optionId == oid) = true
    · rw [List.map_cons,
        @List.find?_cons_of_pos _ (fun x => x.optionId == oid) (recalcResult r)
          (List.map recalcResult rs) (by simp only [recalcResult_optionId]; exact h),
        @List.find?_cons_of_pos _ (fun x => x.optionId == oid) r rs h]
      rfl
    · rw [List.map_cons,
        @List.find?_cons_of_neg _ (fun x => x.optionId == oid) (recalcResult r)
          (List.map recalcResult rs) (by simp only [recalcResult_optionId]; simpa using h),
        @List.find?_cons_of_neg _ (fun x => x.optionId == oid) r rs (by simpa using h), ih]

lemma find?_replaceFirst (oid : String) (f : VotingResult → VotingResult)
    (hf : ∀ r, (f r).optionId = r.optionId) :
    ∀ (rs : List VotingResult) (r0 : VotingResult),
      rs.find? (fun r => r.optionId == oid) = some r0 →
      (replaceFirstResult rs oid f).find? (fun r => r.optionId == oid) = some (f r0) := by
  intro rs
  induction rs with
  | nil => intro r0 h; simp [List.find?] at h
  | cons r rs ih =>
    intro r0 h
    by_cases hr : (r.optionId == oid) = true
    · rw [@List.find?_cons_of_pos _ (fun x => x.optionId == oid) r rs hr] at h
      obtain rfl : r = r0 := by simpa using h
      rw [replaceFirstResult, if_pos hr,
        @List.find?_cons_of_pos _ (fun x => x.optionId == oid) (f r) rs
          (by simp only [hf]; exact hr)]
    · rw [@List.find?_cons_of_neg _ (fun x => x.optionId == oid) r rs (by simpa using hr)] at h
      rw [replaceFirstResult, if_neg (by simpa using hr),
        @List.find?_cons_of_neg _ (fun x => x.optionId == oid) r
          (replaceFirstResult rs oid f) (by simpa using hr)]
      exact ih r0 h

lemma totalVotes_map_recalc (s : VotingSession) :
    totalVotes (recalculateResults s) = totalVotes s := by
  unfold totalVotes recalculateResults
  rw [List.map_map]
  exact congrArg List.sum (List.map_congr_left (fun r _ =>
    show (recalcResult r).votes.length = r.votes.length by rw [recalcResult_votes]))

/-- C3 amended: a successful `submitVote` leaves exactly one vote by the
voting persona on the chosen option (replacement, not duplication), leaves
other personas' votes on that option unchanged, and the session is completed
afterwards exactly when the total number of stored votes — not the number of
distinct voters — has reached the participant count. -/
theorem submitVote_spec (session : VotingSession) (pid oid : String) (score : ℕ)
    (s1 : VotingSession) (h : submitVote session pid oid score = .ok (s1, true)) :
    ((votesFor s1 oid).filter (fun v => v.personaId == pid)).length = 1 ∧
    (votesFor s1 oid).filter (fun v => v.personaId != pid)
      = (votesFor session oid).filter (fun v => v.personaId != pid) ∧
    s1.participants = session.participants ∧
    (s1.status = .completed ↔ session.participants.length ≤ totalVotes s1) := by
  unfold submitVote at h
  split at h
  · simp at h
  · split at h
    · simp at h
    · rename_i hact hscore
      split at h
      · simp at h
      · rename_i r0 hfr
        split at h
        · simp at h
        · rename_i persona hfp
          dsimp only at h
          have hactive : session.status = .active := not_not.mp hact
          set nv : Vote :=
            { personaId := pid, personaName := persona.name, score := score,
              weight := calculatePersonaWeight persona session.method } with hnv
          set g : VotingResult → VotingResult := fun r =>
            { r with votes := r.votes.filter (fun v => v.personaId != pid) ++ [nv] } with hg
          set S1 : VotingSession :=
            recalculateResults { session with
              results := replaceFirstResult session.results oid g } with hS1
          have hfind1 : S1.results.find? (fun r => r.optionId == oid)
              = some (recalcResult (g r0)) := by
            show ((replaceFirstResult session.results oid g).map recalcResult).find?
                (fun r => r.optionId == oid) = some (recalcResult (g r0))
            rw [find?_map_recalc,
              find?_replaceFirst oid g (fun r => rfl) session.results r0 hfr]
            rfl
          have hvotes : votesFor S1 oid
              = r0.votes.filter (fun v => v.personaId != pid) ++ [nv] := by
            unfold votesFor
            rw [hfind1]
            show (recalcResult (g r0)).votes = _
            rw [recalcResult_votes]
          have hsessvotes : votesFor session oid = r0.votes := by
            unfold votesFor
            rw [hfr]
          have hdrop : (r0.votes.filter (fun v => v.personaId != pid)).filter
              (fun v => v.personaId == pid) = [] := by
            refine List.filter_eq_nil_iff.mpr ?_
            intro v hv
            have hne := (List.mem_filter.mp hv).2
            simp only [bne_iff_ne, ne_eq, decide_eq_true_eq] at hne
            simp only [beq_iff_eq]
            exact hne
          have hkeep : (r0.votes.filter (fun v => v.personaId != pid)).filter
              (fun v => v.personaId != pid) = r0.votes.filter (fun v => v.personaId != pid) := by
            rw [List.filter_filter]
            simp [Bool.and_self]
          have hone : ((votesFor S1 oid).filter (fun v => v.personaId == pid)).length = 1 := by
            rw [hvotes, List.filter_append, hdrop]
            simp [hnv]
          have hothers : (votesFor S1 oid).filter (fun v => v.personaId != pid)
              = (votesFor session oid).filter (fun v => v.personaId != pid) := by
            rw [hvotes, List.filter_append, hkeep, hsessvotes]
            simp [hnv]
          have hparts : S1.participants = session.participants := rfl
          split at h
          · rename_i hcomp
            simp only [Except.ok.injEq, Prod.mk.injEq] at h
            obtain ⟨h4, -⟩ := h
            subst h4
            refine ⟨hone, hothers, hparts, ?_⟩
            constructor
            · intro _
              have hle : S1.participants.length ≤ totalVotes S1 := by
                have := of_decide_eq_true hcomp
                exact this
              rw [hparts] at hle
              exact hle
            · intro _
              rfl
          · rename_i hcomp
            simp only [Except.ok.injEq, Prod.mk.injEq] at h
            obtain ⟨h4, -⟩ := h
            subst h4
            refine ⟨hone, hothers, hparts, ?_⟩
            have hst : S1.status = .active := hactive
            refine iff_of_false ?_ ?_
            · rw [hst]
              decide
            · intro hle
              apply hcomp
              have : S1.participants.length ≤ totalVotes S1 := by
                rw [hparts]
                exact hle
              exact decide_eq_true this

/-- Witness for C3 amended: persona `a` voting on option `o1` of the sample
session leaves exactly one of its votes there. -/
theorem submitVote_spec_witness :
    ((votesFor (submitVoteState sampleVotingSession "a" "o1" 8) "o1").filter
      (fun v => v.personaId == "a")).length = 1 :=
  (submitVote_spec sampleVotingSession "a" "o1" 8
    (submitVoteState sampleVotingSession "a" "o1" 8) rfl).1

/-- C3 counterexample: in the two-participant sample session, persona `a`
voting on two different options auto-completes the session (total votes 2 ≥
2 participants) although only one distinct persona has voted — the session
does not complete exactly when the distinct-voter count reaches the
participant count. -/
theorem votingComplete_counterexample :
    (submitVoteState (submitVoteState sampleVotingSession "a" "o1" 8) "a" "o2" 3).status
      = .completed ∧
    distinctVoterCount
      (submitVoteState (submitVoteState sampleVotingSession "a" "o1" 8) "a" "o2" 3) = 1 ∧
    (submitVoteState (submitVoteState sampleVotingSession "a" "o1" 8)
      "a" "o2" 3).participants.length = 2 ∧
    (submitVoteState sampleVotingSession "a" "o1" 8).status = .active := by
  refine ⟨?_, ?_, ?_, ?_⟩ <;> decide

lemma speakGo_success (oracle : ℕ → ℕ → Option ℚ) (r : ℕ) :
    ∀ (rem i iprev : ℕ), (∀ j, j < rem → (oracle r (i + j)).isSome = true) →
    speakGo oracle r rem i iprev =
      ((List.range rem).map (fun t => (oracle r (i + t)).getD 0),
       (if rem = 0 then iprev else i + rem - 1), false) := by
  intro rem
  induction rem with
  | zero => intro i iprev _; simp [speakGo]
  | succ rem ih =>
    intro i iprev hs
    have h0 : (oracle r i).isSome = true := by simpa using hs 0 (by omega)
    obtain ⟨q, hq⟩ := Option.isSome_iff_exists.mp h0
    have hrest : ∀ j, j < rem → (oracle r (i + 1 + j)).isSome = true := by
      intro j hj
      have := hs (j + 1) (by omega)
      have harg : i + (j + 1) = i + 1 + j := by omega
      rwa [harg] at this
    rw [speakGo, hq]
    rw [ih (i + 1) i hrest]
    refine congrArg₂ Prod.mk ?_ (congrArg₂ Prod.mk ?_ rfl)
    · rw [List.range_succ_eq_map, List.map_cons, List.map_map]
      refine congrArg₂ List.cons ?_ ?_
      · rw [Nat.add_zero, hq]
        rfl
      · refine List.map_congr_left ?_
        intro t _
        show (oracle r (i + 1 + t)).getD 0 = (oracle r (i + Nat.succ t)).getD 0
        have harg : i + 1 + t = i + Nat.succ t := by omega
        rw [harg]
    · by_cases hrem : rem = 0 <;> simp [hrem] <;> omega

lemma runRoundsAuxF_success (oracle : ℕ → ℕ → Option ℚ) (np mr : ℕ) :
    ∀ (fuel r i : ℕ) (h : List ℚ), r + fuel = mr + 1 →
    (∀ rr j, r ≤ rr → rr ≤ mr → j < np → (oracle rr j).isSome = true) →
    runRoundsAuxF oracle np mr fuel r i h =
      { state := .completed,
        round := (runRoundsAux (fun rr j => (oracle rr j).getD 0) np fuel r i h).round,
        idx := (runRoundsAux (fun rr j => (oracle rr j).getD 0) np fuel r i h).idx,
        hist := (runRoundsAux (fun rr j => (oracle rr j).getD 0) np fuel r i h).hist,
        exit := reasonExit
          ((runRoundsAux (fun rr j => (oracle rr j).getD 0) np fuel r i h).reason) } := by
  intro fuel
  induction fuel with
  | zero =>
    intro r i h hfuel _
    rw [runRoundsAuxF, if_pos (by omega)]
    rw [runRoundsAux]
    rfl
  | succ fuel ih =>
    intro r i h hfuel hs
    have hrle : r ≤ mr := by omega
    have hround : ∀ j, j < np → (oracle r (0 + j)).isSome = true := by
      intro j hj
      have harg : 0 + j = j := by omega
      rw [harg]
      exact hs r j (le_refl r) hrle hj
    have hsg := speakGo_success oracle r np 0 i hround
    have hqs : (List.range np).map (fun t => (oracle r (0 + t)).getD 0)
        = roundScores (fun rr j => (oracle rr j).getD 0) np r := by
      unfold roundScores
      refine List.map_congr_left ?_
      intro t _
      have harg : 0 + t = t := by omega
      rw [harg]
    rw [runRoundsAuxF, hsg]
    dsimp only
    rw [runRoundsAux]
    rw [hqs]
    by_cases hc : (calculateBasicConsensus
        (h ++ roundScores (fun rr j => (oracle rr j).getD 0) np r)).consensusReached = true
    · rw [if_pos hc, if_pos hc]
      have hidx : (if np = 0 then i else 0 + np - 1) = (if np = 0 then i else np - 1) := by
        by_cases hnp : np = 0 <;> simp [hnp]
      rw [hidx]
      rfl
    · rw [if_neg hc, if_neg hc, if_neg (by simp)]
      exact ih (r + 1) 0 _ (by omega)
        (fun rr j h1 h2 h3 => hs rr j (by omega) h2 h3)

/-- C2 counterexample: with two participants and `maxRounds = 1`, when the
first speaker scores 10 and the second speaker's generation call fails, the
caught failure exits `runSingleRound` mid-round, consensus is still computed
over the partial history `[10]` (support rate 1), and the debate transitions
to completed in the middle of round 1 with one statement instead of two —
refuting that the loop never completes on consensus mid-round. -/
theorem midRoundConsensus_counterexample :
    (runDebateRoundsF failingOracle 2 1 1 0 []).state = .completed ∧
    (runDebateRoundsF failingOracle 2 1 1 0 []).exit = .consensus ∧
    (runDebateRoundsF failingOracle 2 1 1 0 []).hist = [10] ∧
    (runDebateRoundsF failingOracle 2 1 1 0 []).round = 1 ∧
    (runDebateRoundsF failingOracle 2 1 1 0 []).hist.length <
      (runDebateRoundsF failingOracle 2 1 1 0 []).round * 2 := by
  have hs : speakGo failingOracle 1 2 0 0 = ([10], 1, true) := rfl
  have hcons : (calculateBasicConsensus ([] ++ [(10:ℚ)])).consensusReached = true := by
    norm_num [calculateBasicConsensus]
  have hrun : runDebateRoundsF failingOracle 2 1 1 0 [] =
      { state := .completed, round := 1, idx := 1, hist := [10], exit := .consensus } := by
    show runRoundsAuxF failingOracle 2 1 (0 + 1) 1 0 [] = _
    rw [runRoundsAuxF, hs]
    dsimp only
    rw [if_pos hcons, List.nil_append]
  rw [hrun]
  refine ⟨rfl, rfl, rfl, rfl, by norm_num⟩

/-- C2 amended: in every run of the round loop in which all generation calls
succeed, consensus is recomputed over the entire history only after all
participants of the round have spoken, a reached consensus completes the
debate at that round (possibly before `maxRounds`) with only whole rounds in
the history, otherwise the round counter advances with the speaker index
reset to 0, and without consensus the loop exits into the completed state
once the round counter exceeds `maxRounds`; no error exit occurs. (When a
generation call fails mid-round the source still checks consensus over the
partial round and can complete mid-round — see the counterexample.) -/
theorem runDebateRoundsF_spec (oracle : ℕ → ℕ → Option ℚ) (np mr : ℕ) (init : List ℚ)
    (hnp : 1 ≤ np)
    (hsucc : ∀ r j, 1 ≤ r → r ≤ mr → j < np → (oracle r j).isSome = true) :
    (runDebateRoundsF oracle np mr 1 0 init).state = .completed ∧
    (runDebateRoundsF oracle np mr 1 0 init).exit ≠ .errored ∧
    ((runDebateRoundsF oracle np mr 1 0 init).exit = .consensus →
      1 ≤ (runDebateRoundsF oracle np mr 1 0 init).round ∧
      (runDebateRoundsF oracle np mr 1 0 init).round ≤ mr ∧
      (runDebateRoundsF oracle np mr 1 0 init).hist.length
        = init.length + (runDebateRoundsF oracle np mr 1 0 init).round * np ∧
      (calculateBasicConsensus
        ((runDebateRoundsF oracle np mr 1 0 init).hist)).consensusReached = true) ∧
    ((runDebateRoundsF oracle np mr 1 0 init).exit = .maxRounds →
      (runDebateRoundsF oracle np mr 1 0 init).round = mr + 1 ∧
      (runDebateRoundsF oracle np mr 1 0 init).idx = 0 ∧
      (runDebateRoundsF oracle np mr 1 0 init).hist.length
        = init.length + mr * np ∧
      ∀ k, k < mr →
        (calculateBasicConsensus (init ++
          (List.range (k + 1)).flatMap
            (fun t => roundScores (fun rr j => (oracle rr j).getD 0) np (1 + t)))).consensusReached
          = false) := by
  have hbridge := runRoundsAuxF_success oracle np mr mr 1 0 init (by omega)
    (fun rr j h1 h2 h3 => hsucc rr j h1 h2 h3)
  have hrdrF : runDebateRoundsF oracle np mr 1 0 init
      = runRoundsAuxF oracle np mr mr 1 0 init := by
    unfold runDebateRoundsF
    have harg : mr + 1 - 1 = mr := by omega
    rw [harg]
  obtain ⟨hcons, hmaxr⟩ :=
    runRoundsAux_spec (fun rr j => (oracle rr j).getD 0) np hnp mr 1 0 init
  rw [hrdrF, hbridge]
  refine ⟨rfl, ?_, ?_, ?_⟩
  · dsimp only
    cases hrn : (runRoundsAux (fun rr j => (oracle rr j).getD 0) np mr 1 0 init).reason <;>
      simp [reasonExit]
  · intro hex
    dsimp only at hex ⊢
    have hr : (runRoundsAux (fun rr j => (oracle rr j).getD 0) np mr 1 0 init).reason
        = .consensus := by
      cases hrn : (runRoundsAux (fun rr j => (oracle rr j).getD 0) np mr 1 0 init).reason
      · rfl
      · rw [hrn] at hex; simp [reasonExit] at hex
    obtain ⟨k, hk, h1, h2, h3, h4⟩ := hcons hr
    refine ⟨by omega, by omega, ?_, h4⟩
    rw [h3, List.length_append,
      length_flatMap_roundScores (fun rr j => (oracle rr j).getD 0) np 1 (k + 1), h1]
    ring
  · intro hex
    dsimp only at hex ⊢
    have hr : (runRoundsAux (fun rr j => (oracle rr j).getD 0) np mr 1 0 init).reason
        = .maxRoundsReached := by
      cases hrn : (runRoundsAux (fun rr j => (oracle rr j).getD 0) np mr 1 0 init).reason
      · rw [hrn] at hex; simp [reasonExit] at hex
      · rfl
    obtain ⟨h1, h2, h3, h4⟩ := hmaxr hr
    refine ⟨by omega, ?_, ?_, h4⟩
    · rw [h2]
      by_cases hf : mr = 0 <;> simp [hf]
    · rw [h3, List.length_append,
        length_flatMap_roundScores (fun rr j => (oracle rr j).getD 0) np 1 mr]

/-- Witness for C2 amended: a two-participant, one-round debate whose
generation oracle always succeeds with score 10 completes. -/
theorem runDebateRoundsF_spec_witness :
    (runDebateRoundsF (fun _ _ => some (10:ℚ)) 2 1 1 0 []).state = .completed :=
  (runDebateRoundsF_spec (fun _ _ => some 10) 2 1 [] (by norm_num)
    (fun _ _ _ _ _ => rfl)).1

end MeetingRoom
